import Mathlib

set_option maxRecDepth 10000

/-!
Verification of the meilisearch_sdk request dispatcher, task poller,
settings builders and index-configuration derivation, as a shallow
embedding of the Rust sources (src/src/request.rs, src/src/settings.rs,
src/src/documents.rs, src/meilisearch-index-setting-macro/src/lib.rs).

External collaborators (the serde/yaup serializers, the transport
implementations, the error structs of errors.rs and the task poller of
tasks.rs, which are not part of the provided sources) are modelled from
the specification at their documented boundary.
-/

namespace Meili

/-- Modelled from the spec: the structured service-error payload of
errors.rs (not among the provided sources): a machine-readable error
code, a human message, an error type and a documentation link. -/
structure MeilisearchError where
  errorCode : String
  errorMessage : String
  errorType : String
  errorLink : String
deriving DecidableEq

/-- Modelled from the spec: the communication-error payload of errors.rs
(not among the provided sources): the unexpected status code, an optional
message and the originating URL. -/
structure MeilisearchCommunicationError where
  statusCode : Nat
  message : Option String
  url : String
deriving DecidableEq

/-- Modelled from the spec: the closed error taxonomy of errors.rs (not
among the provided sources), restricted to the constructors used by the
dispatcher and the poller: ParseError, Meilisearch (service error),
MeilisearchCommunication, the query-serialization error, and Timeout. -/
inductive Error where
  | parseError
  | meilisearch (e : MeilisearchError)
  | meilisearchCommunication (e : MeilisearchCommunicationError)
  | yaup
  | timeout
deriving DecidableEq

/-- HTTP verbs, as in the http crate values produced by Method::http_method. -/
inductive HttpVerb where
  | GET
  | POST
  | PATCH
  | PUT
  | DELETE
deriving DecidableEq

/-- The wire-method model of request.rs: Get and Delete carry only a
query, Post, Patch and Put carry a query and a body. -/
inductive Method (Q B : Type) where
  | get (query : Q)
  | post (query : Q) (body : B)
  | patch (query : Q) (body : B)
  | put (query : Q) (body : B)
  | delete (query : Q)

/-- Method::query of request.rs. -/
def Method.query {Q B : Type} : Method Q B → Q
  | .get q => q
  | .post q _ => q
  | .patch q _ => q
  | .put q _ => q
  | .delete q => q

/-- Method::http_method of request.rs. -/
def Method.http_method {Q B : Type} : Method Q B → HttpVerb
  | .get _ => .GET
  | .post _ _ => .POST
  | .patch _ _ => .PATCH
  | .put _ _ => .PUT
  | .delete _ => .DELETE

/-- The body carried by a wire method, if any: only the Post, Patch and
Put variants hold one (the transports attach a payload exactly for
these variants in add_body). -/
def Method.body? {Q B : Type} : Method Q B → Option B
  | .get _ => none
  | .post _ b => some b
  | .patch _ b => some b
  | .put _ b => some b
  | .delete _ => none

/-- The empty-body substitution at the top of parse_response in
request.rs: an empty body is replaced by the JSON literal null. -/
def emptyToNull (body : String) : String :=
  if body.isEmpty then "null" else body

/-- parse_response of request.rs (RequestClient::parse_response), with
the two serde_json::from_str instantiations abstracted as parser
functions: parseOutput stands for from_str::<Output> and parseMeiliError
for from_str::<MeilisearchError>. -/
def parse_response {Output : Type} (parseOutput : String → Option Output)
    (parseMeiliError : String → Option MeilisearchError)
    (status_code expected_status_code : Nat) (body : String) (url : String) :
    Except Error Output :=
  let body := emptyToNull body
  if status_code = expected_status_code then
    match parseOutput body with
    | some output => .ok output
    | none => .error .parseError
  else
    match parseMeiliError body with
    | some e => .error (.meilisearch e)
    | none =>
      if 400 ≤ status_code then
        .error (.meilisearchCommunication ⟨status_code, none, url⟩)
      else
        .error .parseError

/-- qualified_version of request.rs, with the compile-time package
version (option_env) as an explicit parameter. -/
def qualified_version (version : Option String) : String :=
  "Meilisearch Rust (v" ++ version.getD "unknown" ++ ")"

/-- add_query_parameters of request.rs, with the yaup serialization of
the query object abstracted as its result (an Except, as the serializer
is fallible and its error is propagated). -/
def add_query_parameters (url : String) (serialized : Except Error String) :
    Except Error String :=
  match serialized with
  | .error e => .error e
  | .ok query => .ok (if query.isEmpty then url else url ++ "?" ++ query)

/-- C1: the dispatcher's response parser returns exactly one of:
Output on parse success when the status matches the expected status,
ParseError on parse failure there; ServiceError when the status differs
and the body parses as a structured service error; CommunicationError
with status and URL when the status differs, the body is not a service
error and the status is at least 400; ParseError when the status
differs, the body is not a service error and the status is below 400.
The body fed to the parsers is the empty-to-null substituted body. -/
theorem parse_response_classification {Output : Type}
    (parseOutput : String → Option Output)
    (parseMeiliError : String → Option MeilisearchError)
    (status expected : Nat) (body url : String) :
    (status = expected → ∀ output, parseOutput (emptyToNull body) = some output →
      parse_response parseOutput parseMeiliError status expected body url = .ok output) ∧
    (status = expected → parseOutput (emptyToNull body) = none →
      parse_response parseOutput parseMeiliError status expected body url =
        .error .parseError) ∧
    (status ≠ expected → ∀ e, parseMeiliError (emptyToNull body) = some e →
      parse_response parseOutput parseMeiliError status expected body url =
        .error (.meilisearch e)) ∧
    (status ≠ expected → parseMeiliError (emptyToNull body) = none → 400 ≤ status →
      parse_response parseOutput parseMeiliError status expected body url =
        .error (.meilisearchCommunication ⟨status, none, url⟩)) ∧
    (status ≠ expected → parseMeiliError (emptyToNull body) = none → status < 400 →
      parse_response parseOutput parseMeiliError status expected body url =
        .error .parseError) := by
  refine ⟨?_, ?_, ?_, ?_, ?_⟩
  · intro h output hp
    simp [parse_response, h, hp]
  · intro h hp
    simp [parse_response, h, hp]
  · intro h e hp
    simp [parse_response, h, hp]
  · intro h hp h400
    simp [parse_response, h, hp, h400]
  · intro h hp h400
    simp [parse_response, h, hp, Nat.not_le.mpr h400]

/-- A concrete output parser used by witnesses: accepts exactly the
string "7" as the number 7. -/
def sampleParseOutput : String → Option Nat :=
  fun s => if s = "7" then some 7 else none

/-- A concrete service-error parser used by witnesses: accepts exactly
one fixed error body. -/
def sampleParseMeiliError : String → Option MeilisearchError :=
  fun s =>
    if s = "service-error-body" then
      some ⟨"invalid_api_key", "The key is invalid", "auth", "doc"⟩
    else none

/-- Witness for C1 at concrete inputs: a matching status with a
parseable body yields the output, and a 404 with an unparseable body
yields a CommunicationError carrying the status and the URL. -/
theorem parse_response_classification_witness :
    parse_response sampleParseOutput sampleParseMeiliError 200 200 "7" "http://h" =
      .ok 7 ∧
    parse_response sampleParseOutput sampleParseMeiliError 404 200 "x" "http://h" =
      .error (.meilisearchCommunication ⟨404, none, "http://h"⟩) :=
  ⟨(parse_response_classification sampleParseOutput sampleParseMeiliError
      200 200 "7" "http://h").1 rfl 7 (by decide),
   (parse_response_classification sampleParseOutput sampleParseMeiliError
      404 200 "x" "http://h").2.2.2.1 (by decide) (by decide) (by decide)⟩

/-- C3: the HTTP verb of a wire method is fully determined by its tag
(Get to GET, Post to POST, Patch to PATCH, Put to PUT, Delete to
DELETE), and a body is carried if and only if the variant is Post, Put
or Patch; the Get and Delete variants cannot carry a body at all. -/
theorem method_verb_body_characterization {Q B : Type} (m : Method Q B) :
    (m.http_method = .GET ↔ ∃ q, m = .get q) ∧
    (m.http_method = .POST ↔ ∃ q b, m = .post q b) ∧
    (m.http_method = .PATCH ↔ ∃ q b, m = .patch q b) ∧
    (m.http_method = .PUT ↔ ∃ q b, m = .put q b) ∧
    (m.http_method = .DELETE ↔ ∃ q, m = .delete q) ∧
    ((m.body?).isSome ↔
      m.http_method = .POST ∨ m.http_method = .PUT ∨ m.http_method = .PATCH) := by
  cases m <;> simp [Method.http_method, Method.body?]

/-- C6: the response parser applied to an empty body returns exactly the
same result as applied to the body "null", on the success path and on
the error-classification path alike. -/
theorem parse_response_empty_body_eq_null {Output : Type}
    (parseOutput : String → Option Output)
    (parseMeiliError : String → Option MeilisearchError)
    (status expected : Nat) (url : String) :
    parse_response parseOutput parseMeiliError status expected "" url =
      parse_response parseOutput parseMeiliError status expected "null" url := rfl

/-- Modelled from the spec: the request value a Transport implementation
builds through new, with_method, with_user_agent_header and
with_authorization_header (the native and browser clients are not among
the provided sources; the contract in section 4.2 specifies these
operations). The headers are kept as a name-value list. -/
structure RequestBuilder where
  url : String
  verb : Option HttpVerb
  headers : List (String × String)
deriving DecidableEq

/-- Modelled from the spec: Transport new(url). -/
def RequestBuilder.new (url : String) : RequestBuilder :=
  ⟨url, none, []⟩

/-- Modelled from the spec: Transport with_method. -/
def RequestBuilder.with_method (r : RequestBuilder) (verb : HttpVerb) :
    RequestBuilder :=
  { r with verb := some verb }

/-- Modelled from the spec: Transport with_user_agent_header. -/
def RequestBuilder.with_user_agent_header (r : RequestBuilder) (value : String) :
    RequestBuilder :=
  { r with headers := r.headers ++ [("User-Agent", value)] }

/-- Modelled from the spec: Transport with_authorization_header. -/
def RequestBuilder.with_authorization_header (r : RequestBuilder) (value : String) :
    RequestBuilder :=
  { r with headers := r.headers ++ [("Authorization", value)] }

/-- The request-construction prefix of RequestClient::request in
request.rs (lines 116 to 124): build the client on the query-qualified
URL, set the verb, set the user agent, and add the Authorization header
exactly when an API key is supplied. The yaup serialization of the query
is abstracted as the function serializeQuery, and the compile-time
package version as the parameter version. -/
def buildRequest {Q B : Type} (serializeQuery : Q → Except Error String)
    (url : String) (apikey : Option String) (method : Method Q B)
    (version : Option String) : Except Error RequestBuilder :=
  match add_query_parameters url (serializeQuery method.query) with
  | .error e => .error e
  | .ok qualifiedUrl =>
    let request_client :=
      ((RequestBuilder.new qualifiedUrl).with_method
          method.http_method).with_user_agent_header (qualified_version version)
    match apikey with
    | some key => .ok (request_client.with_authorization_header ("Bearer " ++ key))
    | none => .ok request_client

/-- C5: a constructed request carries an Authorization header with value
Bearer followed by the API key if and only if an API key was supplied to
the call (the header is absent otherwise), and always carries the fixed
User-Agent header produced by qualified_version. -/
theorem buildRequest_headers {Q B : Type} (serializeQuery : Q → Except Error String)
    (url : String) (apikey : Option String) (method : Method Q B)
    (version : Option String) (r : RequestBuilder)
    (h : buildRequest serializeQuery url apikey method version = .ok r) :
    r.headers.lookup "Authorization" = apikey.map (fun key => "Bearer " ++ key) ∧
    r.headers.lookup "User-Agent" = some (qualified_version version) := by
  unfold buildRequest at h
  cases hq : add_query_parameters url (serializeQuery method.query) with
  | error e => rw [hq] at h; exact absurd h (by simp)
  | ok qualifiedUrl =>
    rw [hq] at h
    cases apikey with
    | none =>
      simp only [Except.ok.injEq] at h
      subst h
      simp [RequestBuilder.new, RequestBuilder.with_method,
        RequestBuilder.with_user_agent_header, List.lookup]
    | some key =>
      simp only [Except.ok.injEq] at h
      subst h
      simp [RequestBuilder.new, RequestBuilder.with_method,
        RequestBuilder.with_user_agent_header,
        RequestBuilder.with_authorization_header, List.lookup]

/-- Witness for C5 at concrete inputs: with an API key the Authorization
header holds the Bearer value, and the User-Agent header is always the
qualified version string. -/
theorem buildRequest_headers_witness :
    (RequestBuilder.mk "http://h" (some .GET)
        [("User-Agent", "Meilisearch Rust (v1.0)"),
         ("Authorization", "Bearer master")]).headers.lookup "Authorization" =
      (some "master").map (fun key => "Bearer " ++ key) ∧
    (RequestBuilder.mk "http://h" (some .GET)
        [("User-Agent", "Meilisearch Rust (v1.0)"),
         ("Authorization", "Bearer master")]).headers.lookup "User-Agent" =
      some (qualified_version (some "1.0")) :=
  buildRequest_headers (fun _ : Unit => .ok "") "http://h" (some "master")
    (Method.get () : Method Unit Unit) (some "1.0")
    (RequestBuilder.mk "http://h" (some .GET)
      [("User-Agent", "Meilisearch Rust (v1.0)"),
       ("Authorization", "Bearer master")]) rfl

/-- PaginationSetting of settings.rs. -/
structure PaginationSetting where
  max_total_hits : Nat
deriving DecidableEq

/-- FacetingSettings of settings.rs. -/
structure FacetingSettings where
  max_values_per_facet : Nat
deriving DecidableEq

/-- The Settings record of settings.rs: ten optional fields, absent
fields are not serialized. The synonyms HashMap is modelled as an
association list. -/
structure Settings where
  synonyms : Option (List (String × List String))
  stop_words : Option (List String)
  ranking_rules : Option (List String)
  filterable_attributes : Option (List String)
  sortable_attributes : Option (List String)
  distinct_attribute : Option String
  searchable_attributes : Option (List String)
  displayed_attributes : Option (List String)
  pagination : Option PaginationSetting
  faceting : Option FacetingSettings
deriving DecidableEq

/-- Settings::new of settings.rs: every field is None. -/
def Settings.new : Settings :=
  ⟨none, none, none, none, none, none, none, none, none, none⟩

/-- Settings::with_synonyms of settings.rs (the AsRef-to-String
conversion of keys and values is the identity in this model). -/
def Settings.with_synonyms (self : Settings)
    (synonyms : List (String × List String)) : Settings :=
  { self with synonyms := some synonyms }

/-- Settings::with_stop_words of settings.rs. -/
def Settings.with_stop_words (self : Settings) (stop_words : List String) :
    Settings :=
  { self with stop_words := some stop_words }

/-- Settings::with_pagination of settings.rs. -/
def Settings.with_pagination (self : Settings)
    (pagination_settings : PaginationSetting) : Settings :=
  { self with pagination := some pagination_settings }

/-- Settings::with_ranking_rules of settings.rs. -/
def Settings.with_ranking_rules (self : Settings) (ranking_rules : List String) :
    Settings :=
  { self with ranking_rules := some ranking_rules }

/-- Settings::with_filterable_attributes of settings.rs. -/
def Settings.with_filterable_attributes (self : Settings)
    (filterable_attributes : List String) : Settings :=
  { self with filterable_attributes := some filterable_attributes }

/-- Settings::with_sortable_attributes of settings.rs. -/
def Settings.with_sortable_attributes (self : Settings)
    (sortable_attributes : List String) : Settings :=
  { self with sortable_attributes := some sortable_attributes }

/-- Settings::with_distinct_attribute of settings.rs. -/
def Settings.with_distinct_attribute (self : Settings)
    (distinct_attribute : String) : Settings :=
  { self with distinct_attribute := some distinct_attribute }

/-- Settings::with_searchable_attributes of settings.rs. -/
def Settings.with_searchable_attributes (self : Settings)
    (searchable_attributes : List String) : Settings :=
  { self with searchable_attributes := some searchable_attributes }

/-- Settings::with_displayed_attributes of settings.rs. -/
def Settings.with_displayed_attributes (self : Settings)
    (displayed_attributes : List String) : Settings :=
  { self with displayed_attributes := some displayed_attributes }

/-- Settings::with_faceting of settings.rs (the clone of the borrowed
argument is the identity in this model). -/
def Settings.with_faceting (self : Settings) (faceting : FacetingSettings) :
    Settings :=
  { self with faceting := some faceting }

/-- C8: Settings::new() has every field None, and each builder method
sets only its own field to Some of the given value, leaving every other
field of the input settings unchanged. -/
theorem settings_builders_frame (s : Settings)
    (syn : List (String × List String)) (sw rr fa sa sea dis : List String)
    (da : String) (pg : PaginationSetting) (fc : FacetingSettings) :
    (Settings.new.synonyms = none ∧ Settings.new.stop_words = none ∧
     Settings.new.ranking_rules = none ∧ Settings.new.filterable_attributes = none ∧
     Settings.new.sortable_attributes = none ∧ Settings.new.distinct_attribute = none ∧
     Settings.new.searchable_attributes = none ∧
     Settings.new.displayed_attributes = none ∧
     Settings.new.pagination = none ∧ Settings.new.faceting = none) ∧
    ((s.with_synonyms syn).synonyms = some syn ∧
     (s.with_synonyms syn).stop_words = s.stop_words ∧
     (s.with_synonyms syn).ranking_rules = s.ranking_rules ∧
     (s.with_synonyms syn).filterable_attributes = s.filterable_attributes ∧
     (s.with_synonyms syn).sortable_attributes = s.sortable_attributes ∧
     (s.with_synonyms syn).distinct_attribute = s.distinct_attribute ∧
     (s.with_synonyms syn).searchable_attributes = s.searchable_attributes ∧
     (s.with_synonyms syn).displayed_attributes = s.displayed_attributes ∧
     (s.with_synonyms syn).pagination = s.pagination ∧
     (s.with_synonyms syn).faceting = s.faceting) ∧
    ((s.with_stop_words sw).stop_words = some sw ∧
     (s.with_stop_words sw).synonyms = s.synonyms ∧
     (s.with_stop_words sw).ranking_rules = s.ranking_rules ∧
     (s.with_stop_words sw).filterable_attributes = s.filterable_attributes ∧
     (s.with_stop_words sw).sortable_attributes = s.sortable_attributes ∧
     (s.with_stop_words sw).distinct_attribute = s.distinct_attribute ∧
     (s.with_stop_words sw).searchable_attributes = s.searchable_attributes ∧
     (s.with_stop_words sw).displayed_attributes = s.displayed_attributes ∧
     (s.with_stop_words sw).pagination = s.pagination ∧
     (s.with_stop_words sw).faceting = s.faceting) ∧
    ((s.with_pagination pg).pagination = some pg ∧
     (s.with_pagination pg).synonyms = s.synonyms ∧
     (s.with_pagination pg).stop_words = s.stop_words ∧
     (s.with_pagination pg).ranking_rules = s.ranking_rules ∧
     (s.with_pagination pg).filterable_attributes = s.filterable_attributes ∧
     (s.with_pagination pg).sortable_attributes = s.sortable_attributes ∧
     (s.with_pagination pg).distinct_attribute = s.distinct_attribute ∧
     (s.with_pagination pg).searchable_attributes = s.searchable_attributes ∧
     (s.with_pagination pg).displayed_attributes = s.displayed_attributes ∧
     (s.with_pagination pg).faceting = s.faceting) ∧
    ((s.with_ranking_rules rr).ranking_rules = some rr ∧
     (s.with_ranking_rules rr).synonyms = s.synonyms ∧
     (s.with_ranking_rules rr).stop_words = s.stop_words ∧
     (s.with_ranking_rules rr).filterable_attributes = s.filterable_attributes ∧
     (s.with_ranking_rules rr).sortable_attributes = s.sortable_attributes ∧
     (s.with_ranking_rules rr).distinct_attribute = s.distinct_attribute ∧
     (s.with_ranking_rules rr).searchable_attributes = s.searchable_attributes ∧
     (s.with_ranking_rules rr).displayed_attributes = s.displayed_attributes ∧
     (s.with_ranking_rules rr).pagination = s.pagination ∧
     (s.with_ranking_rules rr).faceting = s.faceting) ∧
    ((s.with_filterable_attributes fa).filterable_attributes = some fa ∧
     (s.with_filterable_attributes fa).synonyms = s.synonyms ∧
     (s.with_filterable_attributes fa).stop_words = s.stop_words ∧
     (s.with_filterable_attributes fa).ranking_rules = s.ranking_rules ∧
     (s.with_filterable_attributes fa).sortable_attributes = s.sortable_attributes ∧
     (s.with_filterable_attributes fa).distinct_attribute = s.distinct_attribute ∧
     (s.with_filterable_attributes fa).searchable_attributes = s.searchable_attributes ∧
     (s.with_filterable_attributes fa).displayed_attributes = s.displayed_attributes ∧
     (s.with_filterable_attributes fa).pagination = s.pagination ∧
     (s.with_filterable_attributes fa).faceting = s.faceting) ∧
    ((s.with_sortable_attributes sa).sortable_attributes = some sa ∧
     (s.with_sortable_attributes sa).synonyms = s.synonyms ∧
     (s.with_sortable_attributes sa).stop_words = s.stop_words ∧
     (s.with_sortable_attributes sa).ranking_rules = s.ranking_rules ∧
     (s.with_sortable_attributes sa).filterable_attributes = s.filterable_attributes ∧
     (s.with_sortable_attributes sa).distinct_attribute = s.distinct_attribute ∧
     (s.with_sortable_attributes sa).searchable_attributes = s.searchable_attributes ∧
     (s.with_sortable_attributes sa).displayed_attributes = s.displayed_attributes ∧
     (s.with_sortable_attributes sa).pagination = s.pagination ∧
     (s.with_sortable_attributes sa).faceting = s.faceting) ∧
    ((s.with_distinct_attribute da).distinct_attribute = some da ∧
     (s.with_distinct_attribute da).synonyms = s.synonyms ∧
     (s.with_distinct_attribute da).stop_words = s.stop_words ∧
     (s.with_distinct_attribute da).ranking_rules = s.ranking_rules ∧
     (s.with_distinct_attribute da).filterable_attributes = s.filterable_attributes ∧
     (s.with_distinct_attribute da).sortable_attributes = s.sortable_attributes ∧
     (s.with_distinct_attribute da).searchable_attributes = s.searchable_attributes ∧
     (s.with_distinct_attribute da).displayed_attributes = s.displayed_attributes ∧
     (s.with_distinct_attribute da).pagination = s.pagination ∧
     (s.with_distinct_attribute da).faceting = s.faceting) ∧
    ((s.with_searchable_attributes sea).searchable_attributes = some sea ∧
     (s.with_searchable_attributes sea).synonyms = s.synonyms ∧
     (s.with_searchable_attributes sea).stop_words = s.stop_words ∧
     (s.with_searchable_attributes sea).ranking_rules = s.ranking_rules ∧
     (s.with_searchable_attributes sea).filterable_attributes = s.filterable_attributes ∧
     (s.with_searchable_attributes sea).sortable_attributes = s.sortable_attributes ∧
     (s.with_searchable_attributes sea).distinct_attribute = s.distinct_attribute ∧
     (s.with_searchable_attributes sea).displayed_attributes = s.displayed_attributes ∧
     (s.with_searchable_attributes sea).pagination = s.pagination ∧
     (s.with_searchable_attributes sea).faceting = s.faceting) ∧
    ((s.with_displayed_attributes dis).displayed_attributes = some dis ∧
     (s.with_displayed_attributes dis).synonyms = s.synonyms ∧
     (s.with_displayed_attributes dis).stop_words = s.stop_words ∧
     (s.with_displayed_attributes dis).ranking_rules = s.ranking_rules ∧
     (s.with_displayed_attributes dis).filterable_attributes = s.filterable_attributes ∧
     (s.with_displayed_attributes dis).sortable_attributes = s.sortable_attributes ∧
     (s.with_displayed_attributes dis).distinct_attribute = s.distinct_attribute ∧
     (s.with_displayed_attributes dis).searchable_attributes = s.searchable_attributes ∧
     (s.with_displayed_attributes dis).pagination = s.pagination ∧
     (s.with_displayed_attributes dis).faceting = s.faceting) ∧
    ((s.with_faceting fc).faceting = some fc ∧
     (s.with_faceting fc).synonyms = s.synonyms ∧
     (s.with_faceting fc).stop_words = s.stop_words ∧
     (s.with_faceting fc).ranking_rules = s.ranking_rules ∧
     (s.with_faceting fc).filterable_attributes = s.filterable_attributes ∧
     (s.with_faceting fc).sortable_attributes = s.sortable_attributes ∧
     (s.with_faceting fc).distinct_attribute = s.distinct_attribute ∧
     (s.with_faceting fc).searchable_attributes = s.searchable_attributes ∧
     (s.with_faceting fc).displayed_attributes = s.displayed_attributes ∧
     (s.with_faceting fc).pagination = s.pagination) := by
  refine ⟨?_, ?_, ?_, ?_, ?_, ?_, ?_, ?_, ?_, ?_, ?_⟩ <;>
    refine ⟨rfl, rfl, rfl, rfl, rfl, rfl, rfl, rfl, rfl, rfl⟩

/-- A byte left unescaped by URL percent-encoding: ASCII alphanumerics
and the unreserved marks minus, dot, underscore and tilde. -/
def unreservedByte (b : Nat) : Bool :=
  (48 ≤ b && b ≤ 57) || (65 ≤ b && b ≤ 90) || (97 ≤ b && b ≤ 122) ||
    b == 45 || b == 46 || b == 95 || b == 126

/-- The uppercase hexadecimal digit for a value below 16. -/
def hexDigitChar (n : Nat) : Char :=
  Char.ofNat (if n < 10 then 48 + n else 55 + n)

/-- The value of a hexadecimal digit character, if it is one. -/
def hexVal? (c : Char) : Option Nat :=
  if 48 ≤ c.toNat ∧ c.toNat ≤ 57 then some (c.toNat - 48)
  else if 65 ≤ c.toNat ∧ c.toNat ≤ 70 then some (c.toNat - 55)
  else if 97 ≤ c.toNat ∧ c.toNat ≤ 102 then some (c.toNat - 87)
  else none

/-- Percent-encode one byte: unreserved bytes stand for themselves,
every other byte becomes a percent escape of two hex digits. -/
def encodeByte (b : Nat) : List Char :=
  if unreservedByte b then [Char.ofNat b]
  else ['%', hexDigitChar (b / 16), hexDigitChar (b % 16)]

/-- Percent-encode a byte sequence. -/
def encodeBytes : List Nat → List Char
  | [] => []
  | b :: bs => encodeByte b ++ encodeBytes bs

/-- Percent-decode a character sequence back to bytes; fails on a
dangling or malformed escape. -/
def decodeChars : List Char → Option (List Nat)
  | [] => some []
  | c :: rest =>
    if c = '%' then
      match rest with
      | c1 :: c2 :: rest2 =>
        match hexVal? c1, hexVal? c2, decodeChars rest2 with
        | some hi, some lo, some bs => some ((16 * hi + lo) :: bs)
        | _, _, _ => none
      | _ => none
    else
      match decodeChars rest with
      | some bs => some (c.toNat :: bs)
      | none => none

/-- The UTF-8 bytes of a string (the byte content of String.toUTF8,
expressed on the character list so that it reduces). -/
def utf8Bytes (s : String) : List Nat :=
  (s.data.flatMap String.utf8EncodeChar).map UInt8.toNat

/-- Percent-encode a string through its UTF-8 bytes. -/
def encodeStr (s : String) : List Char :=
  encodeBytes (utf8Bytes s)

/-- One key-value pair rendered as encoded key, equals sign, encoded
value. -/
def encodePairChars (kv : String × String) : List Char :=
  encodeStr kv.1 ++ '=' :: encodeStr kv.2

/-- Join URL-query chunks with ampersands. -/
def joinAmp : List (List Char) → List Char
  | [] => []
  | [p] => p
  | p :: ps => p ++ '&' :: joinAmp ps

/-- Modelled from the spec: the yaup serialization of a query object,
given its key-value pairs: percent-encoded pairs joined by ampersands,
the empty string for no pairs (the yaup crate is an external
collaborator; the spec fixes its contract as a percent-encoded
key-value rendering with absent optional fields omitted). -/
def serializePairs (pairs : List (String × String)) : String :=
  ⟨joinAmp (pairs.map encodePairChars)⟩

/-- Split a character sequence at every ampersand. -/
def splitAmp : List Char → List (List Char)
  | [] => [[]]
  | c :: cs =>
    match splitAmp cs with
    | [] => [[c]]
    | g :: gs => if c = '&' then [] :: g :: gs else (c :: g) :: gs

/-- Split a query chunk at its first equals sign. -/
def splitEq : List Char → Option (List Char × List Char)
  | [] => none
  | c :: rest =>
    if c = '=' then some ([], rest)
    else
      match splitEq rest with
      | some kv => some (c :: kv.1, kv.2)
      | none => none

/-- Decode one chunk into a key-value pair of byte sequences. -/
def decodePair (cs : List Char) : Option (List Nat × List Nat) :=
  match splitEq cs with
  | some kv =>
    match decodeChars kv.1, decodeChars kv.2 with
    | some kb, some vb => some (kb, vb)
    | _, _ => none
  | none => none

/-- Decode a list of chunks into key-value pairs. -/
def decodeParts : List (List Char) → Option (List (List Nat × List Nat))
  | [] => some []
  | p :: ps =>
    match decodePair p, decodeParts ps with
    | some kv, some rest => some (kv :: rest)
    | _, _ => none

/-- Decode a whole query string into its key-value pairs, each side
given as its UTF-8 byte sequence. -/
def decodeQueryString (s : String) : Option (List (List Nat × List Nat)) :=
  decodeParts (splitAmp s.data)

theorem hexVal?_hexDigitChar : ∀ n : Fin 16, hexVal? (hexDigitChar n.val) = some n.val := by
  decide

theorem unreserved_char_facts : ∀ b : Fin 256, unreservedByte b.val = true →
    (Char.ofNat b.val).toNat = b.val ∧ Char.ofNat b.val ≠ '%' ∧
    Char.ofNat b.val ≠ '&' ∧ Char.ofNat b.val ≠ '=' := by
  decide

theorem encodeByte_no_sep : ∀ b : Fin 256, '&' ∉ encodeByte b.val ∧ '=' ∉ encodeByte b.val := by
  decide

theorem hexVal?_hexDigitChar_nat (n : Nat) (h : n < 16) :
    hexVal? (hexDigitChar n) = some n :=
  hexVal?_hexDigitChar ⟨n, h⟩

theorem unreserved_char_facts_nat (b : Nat) (hb : b < 256)
    (hu : unreservedByte b = true) :
    (Char.ofNat b).toNat = b ∧ Char.ofNat b ≠ '%' ∧
    Char.ofNat b ≠ '&' ∧ Char.ofNat b ≠ '=' :=
  unreserved_char_facts ⟨b, hb⟩ hu

theorem decodeChars_cons_np (c : Char) (hc : c ≠ '%') (rest : List Char) :
    decodeChars (c :: rest) = (decodeChars rest).map (fun bs => c.toNat :: bs) := by
  rw [decodeChars.eq_def]
  simp only [if_neg hc]
  cases decodeChars rest <;> simp

theorem decodeChars_cons_pct (c1 c2 : Char) (rest : List Char) :
    decodeChars ('%' :: c1 :: c2 :: rest) =
      match hexVal? c1, hexVal? c2, decodeChars rest with
      | some hi, some lo, some bs => some ((16 * hi + lo) :: bs)
      | _, _, _ => none := by
  rw [decodeChars.eq_def]
  simp

theorem decodeChars_encodeByte (b : Nat) (hb : b < 256) (cs : List Char) :
    decodeChars (encodeByte b ++ cs) = (decodeChars cs).map (fun bs => b :: bs) := by
  by_cases hu : unreservedByte b
  · obtain ⟨htn, hp, -, -⟩ := unreserved_char_facts_nat b hb hu
    simp only [encodeByte, hu, if_true, List.cons_append, List.nil_append]
    rw [decodeChars_cons_np _ hp]
    simp only [htn]
  · have h16 : b / 16 < 16 := by omega
    have h16' : b % 16 < 16 := by omega
    simp only [encodeByte, hu, Bool.false_eq_true, if_false, List.cons_append,
      List.nil_append]
    rw [decodeChars_cons_pct]
    simp only [hexVal?_hexDigitChar_nat (b / 16) h16,
      hexVal?_hexDigitChar_nat (b % 16) h16']
    have hb' : 16 * (b / 16) + b % 16 = b := by omega
    cases decodeChars cs <;> simp [hb']

theorem decodeChars_encodeBytes (bs : List Nat) (h : ∀ b ∈ bs, b < 256) (cs : List Char) :
    decodeChars (encodeBytes bs ++ cs) = (decodeChars cs).map (fun rest => bs ++ rest) := by
  induction bs with
  | nil =>
    simp only [encodeBytes, List.nil_append]
    cases decodeChars cs <;> simp
  | cons b bs ih =>
    have hb : b < 256 := h b (by simp)
    have hbs : ∀ x ∈ bs, x < 256 := fun x hx => h x (by simp [hx])
    rw [encodeBytes, List.append_assoc, decodeChars_encodeByte b hb, ih hbs]
    cases decodeChars cs <;> simp

theorem decodeChars_encodeBytes_nil (bs : List Nat) (h : ∀ b ∈ bs, b < 256) :
    decodeChars (encodeBytes bs) = some bs := by
  have := decodeChars_encodeBytes bs h []
  simpa [decodeChars] using this

theorem utf8Bytes_lt (s : String) : ∀ x ∈ utf8Bytes s, x < 256 := by
  intro x hx
  simp only [utf8Bytes, List.mem_map] at hx
  obtain ⟨u, -, rfl⟩ := hx
  have := u.toNat_lt
  omega

theorem encodeBytes_no_sep (bs : List Nat) (h : ∀ b ∈ bs, b < 256) :
    '&' ∉ encodeBytes bs ∧ '=' ∉ encodeBytes bs := by
  induction bs with
  | nil => simp [encodeBytes]
  | cons b bs ih =>
    have hb : b < 256 := h b (by simp)
    have hbs : ∀ x ∈ bs, x < 256 := fun x hx => h x (by simp [hx])
    obtain ⟨h1, h2⟩ := encodeByte_no_sep ⟨b, hb⟩
    obtain ⟨h3, h4⟩ := ih hbs
    rw [encodeBytes]
    exact ⟨by simp [h1, h3], by simp [h2, h4]⟩

theorem encodeStr_no_sep (s : String) : '&' ∉ encodeStr s ∧ '=' ∉ encodeStr s :=
  encodeBytes_no_sep (utf8Bytes s) (utf8Bytes_lt s)

theorem splitEq_encode (k : List Char) (hk : '=' ∉ k) (v : List Char) :
    splitEq (k ++ '=' :: v) = some (k, v) := by
  induction k with
  | nil => simp [splitEq]
  | cons c k ih =>
    have hc : c ≠ '=' := fun h => hk (by simp [h])
    have hk' : '=' ∉ k := fun h => hk (by simp [h])
    simp [splitEq, hc, ih hk']

theorem splitAmp_ne_nil (cs : List Char) : splitAmp cs ≠ [] := by
  induction cs with
  | nil => simp [splitAmp]
  | cons c cs ih =>
    rw [splitAmp]
    cases h : splitAmp cs with
    | nil => exact absurd h ih
    | cons g gs =>
      by_cases hc : c = '&' <;> simp [hc]

theorem splitAmp_no_amp (p : List Char) (hp : '&' ∉ p) : splitAmp p = [p] := by
  induction p with
  | nil => rfl
  | cons c p ih =>
    have hc : c ≠ '&' := fun h => hp (by simp [h])
    have hp' : '&' ∉ p := fun h => hp (by simp [h])
    rw [splitAmp, ih hp']
    simp [hc]

theorem splitAmp_append (p rest : List Char) (hp : '&' ∉ p) :
    splitAmp (p ++ '&' :: rest) = p :: splitAmp rest := by
  induction p with
  | nil =>
    rw [List.nil_append, splitAmp]
    cases h : splitAmp rest with
    | nil => exact absurd h (splitAmp_ne_nil rest)
    | cons g gs => simp
  | cons c p ih =>
    have hc : c ≠ '&' := fun h => hp (by simp [h])
    have hp' : '&' ∉ p := fun h => hp (by simp [h])
    rw [List.cons_append, splitAmp, ih hp']
    simp [hc]

theorem splitAmp_joinAmp (ps : List (List Char)) (hne : ps ≠ [])
    (hp : ∀ p ∈ ps, '&' ∉ p) : splitAmp (joinAmp ps) = ps := by
  induction ps with
  | nil => exact absurd rfl hne
  | cons p ps ih =>
    cases ps with
    | nil => exact splitAmp_no_amp p (hp p (by simp))
    | cons q ps2 =>
      have hjoin : joinAmp (p :: q :: ps2) = p ++ '&' :: joinAmp (q :: ps2) := rfl
      rw [hjoin, splitAmp_append p _ (hp p (by simp)),
        ih (by simp) (fun r hr => hp r (by simp [hr]))]

theorem encodePairChars_no_amp (kv : String × String) : '&' ∉ encodePairChars kv := by
  obtain ⟨h1, -⟩ := encodeStr_no_sep kv.1
  obtain ⟨h2, -⟩ := encodeStr_no_sep kv.2
  simp [encodePairChars, h1, h2]

theorem decodePair_encodePair (kv : String × String) :
    decodePair (encodePairChars kv) = some (utf8Bytes kv.1, utf8Bytes kv.2) := by
  obtain ⟨-, hk⟩ := encodeStr_no_sep kv.1
  rw [decodePair, encodePairChars, splitEq_encode _ hk]
  simp only [encodeStr]
  rw [decodeChars_encodeBytes_nil _ (utf8Bytes_lt kv.1),
    decodeChars_encodeBytes_nil _ (utf8Bytes_lt kv.2)]

theorem decodeParts_encode (pairs : List (String × String)) :
    decodeParts (pairs.map encodePairChars) =
      some (pairs.map fun kv => (utf8Bytes kv.1, utf8Bytes kv.2)) := by
  induction pairs with
  | nil => rfl
  | cons kv pairs ih =>
    rw [List.map_cons, decodeParts, decodePair_encodePair kv, ih, List.map_cons]

theorem decode_serializePairs (pairs : List (String × String)) (hne : pairs ≠ []) :
    decodeQueryString (serializePairs pairs) =
      some (pairs.map fun kv => (utf8Bytes kv.1, utf8Bytes kv.2)) := by
  show decodeParts (splitAmp (joinAmp (pairs.map encodePairChars))) = _
  rw [splitAmp_joinAmp _ (by simpa using hne)
    (by intro p hp; obtain ⟨kv, -, rfl⟩ := List.mem_map.mp hp; exact encodePairChars_no_amp kv)]
  exact decodeParts_encode pairs

/-- Modelled from the spec: the index handle of indexes.rs (not among
the provided sources); only its uid is relevant here. -/
structure Index where
  uid : String
deriving DecidableEq

/-- DocumentsQuery of documents.rs: an index back-reference (marked
skip_serializing) and three optional fields offset, limit and fields,
each skipped when None. -/
structure DocumentsQuery where
  index : Index
  offset : Option Nat
  limit : Option Nat
  fields : Option (List String)
deriving DecidableEq

/-- DocumentsQuery::new of documents.rs: offset, limit and fields all
None. -/
def DocumentsQuery.new (index : Index) : DocumentsQuery :=
  ⟨index, none, none, none⟩

/-- DocumentsQuery::with_offset of documents.rs. -/
def DocumentsQuery.with_offset (self : DocumentsQuery) (offset : Nat) :
    DocumentsQuery :=
  { self with offset := some offset }

/-- DocumentsQuery::with_limit of documents.rs. -/
def DocumentsQuery.with_limit (self : DocumentsQuery) (limit : Nat) :
    DocumentsQuery :=
  { self with limit := some limit }

/-- DocumentsQuery::with_fields of documents.rs. -/
def DocumentsQuery.with_fields (self : DocumentsQuery) (fields : List String) :
    DocumentsQuery :=
  { self with fields := some fields }

/-- The key-value pairs serde/yaup derive from a DocumentsQuery: the
index back-reference is never emitted (serde skip_serializing), each
None optional field is omitted (serde skip_serializing_if), the rest
appear in field-declaration order; the fields list is rendered
comma-separated. -/
def DocumentsQuery.toPairs (q : DocumentsQuery) : List (String × String) :=
  (match q.offset with
    | none => []
    | some n => [("offset", toString n)]) ++
  (match q.limit with
    | none => []
    | some n => [("limit", toString n)]) ++
  (match q.fields with
    | none => []
    | some fs => [("fields", String.intercalate "," fs)])

/-- The yaup serialization of a DocumentsQuery. -/
def serializeDocumentsQuery (q : DocumentsQuery) : String :=
  serializePairs q.toPairs

/-- C4: if the query serializes to the empty string, the request URL is
the base URL unchanged, with no question mark appended; otherwise the
URL is the base URL, a question mark, and a percent-encoded string
whose decoded key-value pairs (as UTF-8 byte sequences) are exactly the
query's fields with every None-valued optional field omitted. -/
theorem add_query_parameters_spec (url : String) (q : DocumentsQuery) :
    (serializeDocumentsQuery q = "" →
      add_query_parameters url (.ok (serializeDocumentsQuery q)) = .ok url) ∧
    (serializeDocumentsQuery q ≠ "" →
      add_query_parameters url (.ok (serializeDocumentsQuery q)) =
        .ok (url ++ "?" ++ serializeDocumentsQuery q) ∧
      decodeQueryString (serializeDocumentsQuery q) =
        some (q.toPairs.map fun kv => (utf8Bytes kv.1, utf8Bytes kv.2))) := by
  constructor
  · intro h
    rw [h]
    rfl
  · intro h
    have hne : q.toPairs ≠ [] := by
      intro hnil
      apply h
      simp [serializeDocumentsQuery, serializePairs, hnil, joinAmp]
    have hb : (serializeDocumentsQuery q).isEmpty = false := by
      rw [← Bool.not_eq_true]
      intro habs
      exact h ((String.isEmpty_iff (serializeDocumentsQuery q)).mp habs)
    refine ⟨by simp [add_query_parameters, hb], ?_⟩
    rw [serializeDocumentsQuery]
    exact decode_serializePairs q.toPairs hne

/-- A concrete documents query used by witnesses. -/
def sampleDocumentsQuery : DocumentsQuery :=
  ⟨⟨"movies"⟩, some 3, none, some ["title", "kind"]⟩

/-- Witness for C4 at concrete inputs: a fresh query leaves the URL
untouched, a query with offset 3 and two field names appends a
decodable query string. -/
theorem add_query_parameters_spec_witness :
    add_query_parameters "http://h/documents"
        (.ok (serializeDocumentsQuery (DocumentsQuery.new ⟨"movies"⟩))) =
      .ok "http://h/documents" ∧
    (add_query_parameters "http://h/documents"
        (.ok (serializeDocumentsQuery sampleDocumentsQuery)) =
      .ok ("http://h/documents" ++ "?" ++ serializeDocumentsQuery sampleDocumentsQuery) ∧
     decodeQueryString (serializeDocumentsQuery sampleDocumentsQuery) =
      some (sampleDocumentsQuery.toPairs.map fun kv =>
        (utf8Bytes kv.1, utf8Bytes kv.2))) :=
  ⟨(add_query_parameters_spec "http://h/documents"
      (DocumentsQuery.new ⟨"movies"⟩)).1 rfl,
   (add_query_parameters_spec "http://h/documents" sampleDocumentsQuery).2
     (by decide)⟩

/-- C9: a fresh DocumentsQuery has offset, limit and fields all None,
no DocumentsQuery serialization ever emits the index back-reference
key, and the request URL built from a fresh DocumentsQuery is the base
URL with no question-mark suffix. -/
theorem documents_query_fresh (idx : Index) (url : String) :
    (DocumentsQuery.new idx).offset = none ∧
    (DocumentsQuery.new idx).limit = none ∧
    (DocumentsQuery.new idx).fields = none ∧
    (∀ q : DocumentsQuery, (q.toPairs.map Prod.fst).contains "index" = false) ∧
    add_query_parameters url
        (.ok (serializeDocumentsQuery (DocumentsQuery.new idx))) = .ok url := by
  refine ⟨rfl, rfl, rfl, ?_, rfl⟩
  intro q
  rcases q with ⟨i, o, l, f⟩
  rcases o <;> rcases l <;> rcases f <;> simp [DocumentsQuery.toPairs]

/-- The valid index_config attribute names of
meilisearch-index-setting-macro/src/lib.rs. -/
def valid_attribute_names : List String :=
  ["displayed", "searchable", "filterable", "sortable", "primary_key", "distinct"]

/-- The compile errors extract_all_attr_values can produce (each stands
for one syn::Error the macro emits). -/
inductive AttrError where
  | duplicatePrimaryKey
  | duplicateDistinct
  | duplicateOnField (name : String)
  | invalidName (name : String)
deriving DecidableEq

/-- The per-ident loop of extract_all_attr_values in
meilisearch-index-setting-macro/src/lib.rs: global is the struct-wide
attribute_set (a HashSet, modelled as a list with membership), lcl the
per-field local_attribute_set, acc the collected attribute_names. The
check order follows the source: primary_key already seen on the struct,
distinct already seen on the struct, repeated on this field, unknown
name. -/
def extractGo : List String → List String → List String → List String →
    Except AttrError (List String × List String)
  | [], global, _, acc => .ok (acc, global)
  | x :: rest, global, lcl, acc =>
    if x = "primary_key" ∧ "primary_key" ∈ global then .error .duplicatePrimaryKey
    else if x = "distinct" ∧ "distinct" ∈ global then .error .duplicateDistinct
    else if x ∈ lcl then .error (.duplicateOnField x)
    else if x ∉ valid_attribute_names then .error (.invalidName x)
    else extractGo rest (global ++ [x]) (lcl ++ [x]) (acc ++ [x])

/-- extract_all_attr_values of meilisearch-index-setting-macro/src/lib.rs
for one field: attrs are the index_config annotation idents of the
field in order, global the struct-wide attribute_set; on success it
returns the attribute names and the updated struct-wide set. -/
def extract_all_attr_values (attrs global : List String) :
    Except AttrError (List String × List String) :=
  extractGo attrs global [] []

/-- The accumulator of get_index_config_implementation in
meilisearch-index-setting-macro/src/lib.rs: the four attribute lists,
the primary-key and distinct-key names (empty string when unset, as in
the source), and the struct-wide attribute_set. -/
structure MacroAcc where
  displayed_attributes : List String
  searchable_attributes : List String
  filterable_attributes : List String
  sortable_attributes : List String
  primary_key_attribute : String
  distinct_key_attribute : String
  attribute_set : List String
deriving DecidableEq

/-- The initial accumulator of get_index_config_implementation. -/
def initMacroAcc : MacroAcc := ⟨[], [], [], [], "", "", []⟩

/-- The match on one attribute name inside the field loop of
get_index_config_implementation: push the field name onto the matching
list, or record it as primary key or distinct key. -/
def applyAttr (name : String) (acc : MacroAcc) (attr : String) : MacroAcc :=
  if attr = "displayed" then
    { acc with displayed_attributes := acc.displayed_attributes ++ [name] }
  else if attr = "searchable" then
    { acc with searchable_attributes := acc.searchable_attributes ++ [name] }
  else if attr = "filterable" then
    { acc with filterable_attributes := acc.filterable_attributes ++ [name] }
  else if attr = "sortable" then
    { acc with sortable_attributes := acc.sortable_attributes ++ [name] }
  else if attr = "primary_key" then
    { acc with primary_key_attribute := name }
  else if attr = "distinct" then
    { acc with distinct_key_attribute := name }
  else acc

/-- One iteration of the field loop of get_index_config_implementation:
extract the field's attribute names (threading the struct-wide set) and
fold them into the accumulator; an extraction error aborts the macro. -/
def processField (acc : MacroAcc) (field : String × List String) :
    Except AttrError MacroAcc :=
  match extract_all_attr_values field.2 acc.attribute_set with
  | .error e => .error e
  | .ok na => .ok (na.1.foldl (applyAttr field.1) { acc with attribute_set := na.2 })

/-- The field loop of get_index_config_implementation, with early
return on the first extraction error. -/
def get_index_config_fields :
    List (String × List String) → MacroAcc → Except AttrError MacroAcc
  | [], acc => .ok acc
  | f :: fs, acc =>
    match processField acc f with
    | .error e => .error e
    | .ok acc' => get_index_config_fields fs acc'

/-- The settings expression the macro emits in generate_settings:
Settings::new() with the four attribute lists always applied (an empty
iterator when the list is empty) and with_distinct_attribute applied
only when a distinct key was recorded. -/
def buildSettingsFromAcc (acc : MacroAcc) : Settings :=
  let s :=
    (((Settings.new.with_displayed_attributes
        acc.displayed_attributes).with_sortable_attributes
        acc.sortable_attributes).with_filterable_attributes
        acc.filterable_attributes).with_searchable_attributes
        acc.searchable_attributes
  if acc.distinct_key_attribute.isEmpty then s
  else s.with_distinct_attribute acc.distinct_key_attribute

/-- generate_settings as produced by get_index_config_implementation
for a struct described by its fields (name and annotation list, in
declaration order). -/
def generate_settings (fields : List (String × List String)) :
    Except AttrError Settings :=
  match get_index_config_fields fields initMacroAcc with
  | .error e => .error e
  | .ok acc => .ok (buildSettingsFromAcc acc)

/-- The names of the fields carrying a given annotation, in declaration
order. -/
def fieldsWith (attr : String) (fields : List (String × List String)) :
    List String :=
  (fields.filter fun f => attr ∈ f.2).map Prod.fst

theorem extractGo_ok (attrs : List String) : ∀ global lcl acc,
    (∀ a ∈ attrs, a ∈ valid_attribute_names) →
    attrs.Nodup →
    (∀ a ∈ attrs, a ∉ lcl) →
    ¬("primary_key" ∈ attrs ∧ "primary_key" ∈ global) →
    ¬("distinct" ∈ attrs ∧ "distinct" ∈ global) →
    extractGo attrs global lcl acc = .ok (acc ++ attrs, global ++ attrs) := by
  induction attrs with
  | nil =>
    intro global lcl acc _ _ _ _ _
    simp [extractGo]
  | cons x rest ih =>
    intro global lcl acc hv hnd hl hpk hd
    have hx1 : ¬(x = "primary_key" ∧ "primary_key" ∈ global) := by
      rintro ⟨rfl, hg⟩
      exact hpk ⟨by simp, hg⟩
    have hx2 : ¬(x = "distinct" ∧ "distinct" ∈ global) := by
      rintro ⟨rfl, hg⟩
      exact hd ⟨by simp, hg⟩
    have hx3 : x ∉ lcl := hl x (by simp)
    have hx4 : x ∈ valid_attribute_names := hv x (by simp)
    have hxr : x ∉ rest := (List.nodup_cons.mp hnd).1
    rw [extractGo, if_neg hx1, if_neg hx2, if_neg hx3, if_neg (by simp [hx4])]
    rw [ih (global ++ [x]) (lcl ++ [x]) (acc ++ [x])
      (fun a ha => hv a (by simp [ha]))
      (List.nodup_cons.mp hnd).2
      (by
        intro a ha
        simp only [List.mem_append, List.mem_singleton]
        rintro (h | rfl)
        · exact hl a (by simp [ha]) h
        · exact hxr ha)
      (by
        rintro ⟨hr, hg⟩
        simp only [List.mem_append, List.mem_singleton] at hg
        rcases hg with hg | rfl
        · exact hpk ⟨by simp [hr], hg⟩
        · exact hxr hr)
      (by
        rintro ⟨hr, hg⟩
        simp only [List.mem_append, List.mem_singleton] at hg
        rcases hg with hg | rfl
        · exact hd ⟨by simp [hr], hg⟩
        · exact hxr hr)]
    simp

theorem extractGo_ok_inv (attrs : List String) : ∀ global lcl acc names global',
    extractGo attrs global lcl acc = .ok (names, global') →
    names = acc ++ attrs ∧ global' = global ++ attrs ∧ attrs.Nodup ∧
    (∀ a ∈ attrs, a ∈ valid_attribute_names) ∧
    ¬("primary_key" ∈ attrs ∧ "primary_key" ∈ global) ∧
    ¬("distinct" ∈ attrs ∧ "distinct" ∈ global) ∧
    (∀ a ∈ attrs, a ∉ lcl) := by
  induction attrs with
  | nil =>
    intro global lcl acc names global' h
    simp only [extractGo, Except.ok.injEq, Prod.mk.injEq] at h
    obtain ⟨h1, h2⟩ := h
    subst h1
    subst h2
    simp
  | cons x rest ih =>
    intro global lcl acc names global' h
    rw [extractGo] at h
    by_cases hx1 : x = "primary_key" ∧ "primary_key" ∈ global
    · rw [if_pos hx1] at h; cases h
    rw [if_neg hx1] at h
    by_cases hx2 : x = "distinct" ∧ "distinct" ∈ global
    · rw [if_pos hx2] at h; cases h
    rw [if_neg hx2] at h
    by_cases hx3 : x ∈ lcl
    · rw [if_pos hx3] at h; cases h
    rw [if_neg hx3] at h
    by_cases hx4 : x ∉ valid_attribute_names
    · rw [if_pos hx4] at h; cases h
    rw [if_neg hx4] at h
    have hxv : x ∈ valid_attribute_names := not_not.mp hx4
    obtain ⟨e1, e2, e3, e4, e5, e6, e7⟩ := ih _ _ _ _ _ h
    have hxr : x ∉ rest := by
      intro hmem
      exact e7 x hmem (by simp)
    refine ⟨by simp [e1], by simp [e2], List.nodup_cons.mpr ⟨hxr, e3⟩, ?_, ?_, ?_, ?_⟩
    · intro a ha
      rcases List.mem_cons.mp ha with rfl | har
      · exact hxv
      · exact e4 a har
    · rintro ⟨hmem, hg⟩
      rcases List.mem_cons.mp hmem with heq | hr
      · exact hx1 ⟨heq.symm, hg⟩
      · exact e5 ⟨hr, by simp [hg]⟩
    · rintro ⟨hmem, hg⟩
      rcases List.mem_cons.mp hmem with heq | hr
      · exact hx2 ⟨heq.symm, hg⟩
      · exact e6 ⟨hr, by simp [hg]⟩
    · intro a ha
      rcases List.mem_cons.mp ha with rfl | har
      · exact hx3
      · intro hal
        exact e7 a har (by simp [hal])

theorem extractGo_err_pk (attrs : List String) : ∀ global lcl acc,
    "primary_key" ∈ attrs → "primary_key" ∈ global →
    (extractGo attrs global lcl acc).isOk = false := by
  induction attrs with
  | nil =>
    intro _ _ _ h _
    simp at h
  | cons x rest ih =>
    intro global lcl acc hmem hg
    rw [extractGo]
    by_cases hx1 : x = "primary_key" ∧ "primary_key" ∈ global
    · rw [if_pos hx1]; rfl
    rw [if_neg hx1]
    by_cases hx2 : x = "distinct" ∧ "distinct" ∈ global
    · rw [if_pos hx2]; rfl
    rw [if_neg hx2]
    by_cases hx3 : x ∈ lcl
    · rw [if_pos hx3]; rfl
    rw [if_neg hx3]
    by_cases hx4 : x ∉ valid_attribute_names
    · rw [if_pos hx4]; rfl
    rw [if_neg hx4]
    have hxne : x ≠ "primary_key" := fun he => hx1 ⟨he, hg⟩
    have hr : "primary_key" ∈ rest := by
      rcases List.mem_cons.mp hmem with heq | hrest
      · exact absurd heq.symm hxne
      · exact hrest
    exact ih _ _ _ hr (by simp [hg])

theorem extractGo_err_distinct (attrs : List String) : ∀ global lcl acc,
    "distinct" ∈ attrs → "distinct" ∈ global →
    (extractGo attrs global lcl acc).isOk = false := by
  induction attrs with
  | nil =>
    intro _ _ _ h _
    simp at h
  | cons x rest ih =>
    intro global lcl acc hmem hg
    rw [extractGo]
    by_cases hx1 : x = "primary_key" ∧ "primary_key" ∈ global
    · rw [if_pos hx1]; rfl
    rw [if_neg hx1]
    by_cases hx2 : x = "distinct" ∧ "distinct" ∈ global
    · rw [if_pos hx2]; rfl
    rw [if_neg hx2]
    by_cases hx3 : x ∈ lcl
    · rw [if_pos hx3]; rfl
    rw [if_neg hx3]
    by_cases hx4 : x ∉ valid_attribute_names
    · rw [if_pos hx4]; rfl
    rw [if_neg hx4]
    have hxne : x ≠ "distinct" := fun he => hx2 ⟨he, hg⟩
    have hr : "distinct" ∈ rest := by
      rcases List.mem_cons.mp hmem with heq | hrest
      · exact absurd heq.symm hxne
      · exact hrest
    exact ih _ _ _ hr (by simp [hg])

theorem extractGo_err_dup (attrs : List String) : ∀ global lcl acc,
    (¬ attrs.Nodup ∨ ∃ a ∈ attrs, a ∈ lcl) →
    (extractGo attrs global lcl acc).isOk = false := by
  induction attrs with
  | nil =>
    intro _ _ _ h
    rcases h with h | ⟨a, ha, _⟩
    · exact absurd List.nodup_nil h
    · simp at ha
  | cons x rest ih =>
    intro global lcl acc h
    rw [extractGo]
    by_cases hx1 : x = "primary_key" ∧ "primary_key" ∈ global
    · rw [if_pos hx1]; rfl
    rw [if_neg hx1]
    by_cases hx2 : x = "distinct" ∧ "distinct" ∈ global
    · rw [if_pos hx2]; rfl
    rw [if_neg hx2]
    by_cases hx3 : x ∈ lcl
    · rw [if_pos hx3]; rfl
    rw [if_neg hx3]
    by_cases hx4 : x ∉ valid_attribute_names
    · rw [if_pos hx4]; rfl
    rw [if_neg hx4]
    apply ih
    rcases h with hnd | ⟨a, ha, hal⟩
    · by_cases hxr : x ∈ rest
      · exact Or.inr ⟨x, hxr, by simp⟩
      · exact Or.inl (fun hrnd => hnd (List.nodup_cons.mpr ⟨hxr, hrnd⟩))
    · rcases List.mem_cons.mp ha with rfl | har
      · exact absurd hal hx3
      · exact Or.inr ⟨a, har, by simp [hal]⟩

theorem extractGo_err_invalid (attrs : List String) : ∀ global lcl acc (a : String),
    a ∈ attrs → a ∉ valid_attribute_names →
    (extractGo attrs global lcl acc).isOk = false := by
  induction attrs with
  | nil =>
    intro _ _ _ _ h _
    simp at h
  | cons x rest ih =>
    intro global lcl acc a hmem hv
    rw [extractGo]
    by_cases hx1 : x = "primary_key" ∧ "primary_key" ∈ global
    · rw [if_pos hx1]; rfl
    rw [if_neg hx1]
    by_cases hx2 : x = "distinct" ∧ "distinct" ∈ global
    · rw [if_pos hx2]; rfl
    rw [if_neg hx2]
    by_cases hx3 : x ∈ lcl
    · rw [if_pos hx3]; rfl
    rw [if_neg hx3]
    by_cases hx4 : x ∉ valid_attribute_names
    · rw [if_pos hx4]; rfl
    rw [if_neg hx4]
    have har : a ∈ rest := by
      rcases List.mem_cons.mp hmem with rfl | hrest
      · exact absurd (not_not.mp hx4) hv
      · exact hrest
    exact ih _ _ _ a har hv

/-- C10: the attribute extraction rejects, with an error, a primary_key
annotation when one was already seen on the struct, a distinct
annotation when one was already seen on the struct, a repeated
annotation on the same field, and any annotation name outside the six
valid names; on fault-free input it returns the annotation-name list
(and adds the names to the struct-wide set). -/
theorem extract_all_attr_values_spec (attrs global : List String) :
    ("primary_key" ∈ attrs → "primary_key" ∈ global →
      (extract_all_attr_values attrs global).isOk = false) ∧
    ("distinct" ∈ attrs → "distinct" ∈ global →
      (extract_all_attr_values attrs global).isOk = false) ∧
    (¬ attrs.Nodup → (extract_all_attr_values attrs global).isOk = false) ∧
    (∀ a ∈ attrs, a ∉ valid_attribute_names →
      (extract_all_attr_values attrs global).isOk = false) ∧
    ((∀ a ∈ attrs, a ∈ valid_attribute_names) → attrs.Nodup →
      ¬("primary_key" ∈ attrs ∧ "primary_key" ∈ global) →
      ¬("distinct" ∈ attrs ∧ "distinct" ∈ global) →
      extract_all_attr_values attrs global = .ok (attrs, global ++ attrs)) :=
  ⟨fun hm hg => extractGo_err_pk attrs global [] [] hm hg,
   fun hm hg => extractGo_err_distinct attrs global [] [] hm hg,
   fun hnd => extractGo_err_dup attrs global [] [] (Or.inl hnd),
   fun a ha hv => extractGo_err_invalid attrs global [] [] a ha hv,
   fun hv hnd hpk hd => by
     have := extractGo_ok attrs global [] [] hv hnd (by simp) hpk hd
     simpa [extract_all_attr_values] using this⟩

/-- Witness for C10 at concrete inputs: each fault class is rejected
and a fault-free field succeeds with its annotation names. -/
theorem extract_all_attr_values_spec_witness :
    (extract_all_attr_values ["primary_key"] ["primary_key"]).isOk = false ∧
    (extract_all_attr_values ["distinct"] ["distinct"]).isOk = false ∧
    (extract_all_attr_values ["displayed", "displayed"] []).isOk = false ∧
    (extract_all_attr_values ["wrong"] []).isOk = false ∧
    extract_all_attr_values ["displayed", "primary_key"] ["searchable"] =
      .ok (["displayed", "primary_key"], ["searchable", "displayed", "primary_key"]) :=
  ⟨(extract_all_attr_values_spec ["primary_key"] ["primary_key"]).1
      (by decide) (by decide),
   (extract_all_attr_values_spec ["distinct"] ["distinct"]).2.1
      (by decide) (by decide),
   (extract_all_attr_values_spec ["displayed", "displayed"] []).2.2.1 (by decide),
   (extract_all_attr_values_spec ["wrong"] []).2.2.2.1 "wrong"
      (by decide) (by decide),
   (extract_all_attr_values_spec ["displayed", "primary_key"] ["searchable"]).2.2.2.2
      (by decide) (by decide) (by decide) (by decide)⟩

theorem applyAttr_displayed (nm : String) (acc : MacroAcc) (attr : String) :
    (applyAttr nm acc attr).displayed_attributes =
      if attr = "displayed" then acc.displayed_attributes ++ [nm]
      else acc.displayed_attributes := by
  unfold applyAttr
  split_ifs <;> simp_all

theorem applyAttr_searchable (nm : String) (acc : MacroAcc) (attr : String) :
    (applyAttr nm acc attr).searchable_attributes =
      if attr = "searchable" then acc.searchable_attributes ++ [nm]
      else acc.searchable_attributes := by
  unfold applyAttr
  split_ifs <;> simp_all

theorem applyAttr_filterable (nm : String) (acc : MacroAcc) (attr : String) :
    (applyAttr nm acc attr).filterable_attributes =
      if attr = "filterable" then acc.filterable_attributes ++ [nm]
      else acc.filterable_attributes := by
  unfold applyAttr
  split_ifs <;> simp_all

theorem applyAttr_sortable (nm : String) (acc : MacroAcc) (attr : String) :
    (applyAttr nm acc attr).sortable_attributes =
      if attr = "sortable" then acc.sortable_attributes ++ [nm]
      else acc.sortable_attributes := by
  unfold applyAttr
  split_ifs <;> simp_all

theorem applyAttr_distinct (nm : String) (acc : MacroAcc) (attr : String) :
    (applyAttr nm acc attr).distinct_key_attribute =
      if attr = "distinct" then nm else acc.distinct_key_attribute := by
  unfold applyAttr
  split_ifs <;> simp_all

theorem applyAttr_set (nm : String) (acc : MacroAcc) (attr : String) :
    (applyAttr nm acc attr).attribute_set = acc.attribute_set := by
  unfold applyAttr
  split_ifs <;> simp_all

theorem foldl_applyAttr_set (names : List String) (nm : String) : ∀ acc : MacroAcc,
    (names.foldl (applyAttr nm) acc).attribute_set = acc.attribute_set := by
  induction names with
  | nil => intro acc; rfl
  | cons x rest ih =>
    intro acc
    rw [List.foldl_cons, ih, applyAttr_set]

theorem foldl_applyAttr_distinct (names : List String) (nm : String) : ∀ acc : MacroAcc,
    (names.foldl (applyAttr nm) acc).distinct_key_attribute =
      if "distinct" ∈ names then nm else acc.distinct_key_attribute := by
  induction names with
  | nil => intro acc; simp
  | cons x rest ih =>
    intro acc
    rw [List.foldl_cons, ih]
    by_cases hx : x = "distinct"
    · subst hx
      by_cases hr : "distinct" ∈ rest <;> simp [hr, applyAttr_distinct]
    · simp [applyAttr_distinct, hx, Ne.symm hx]

theorem foldl_applyAttr_displayed (names : List String) (nm : String) :
    ∀ acc : MacroAcc, names.Nodup →
    (names.foldl (applyAttr nm) acc).displayed_attributes =
      acc.displayed_attributes ++ (if "displayed" ∈ names then [nm] else []) := by
  induction names with
  | nil => intro acc _; simp
  | cons x rest ih =>
    intro acc hnd
    obtain ⟨hx_rest, hnd'⟩ := List.nodup_cons.mp hnd
    rw [List.foldl_cons, ih _ hnd']
    by_cases hx : x = "displayed"
    · subst hx
      simp [hx_rest, applyAttr_displayed]
    · simp [applyAttr_displayed, hx, Ne.symm hx]

theorem foldl_applyAttr_searchable (names : List String) (nm : String) :
    ∀ acc : MacroAcc, names.Nodup →
    (names.foldl (applyAttr nm) acc).searchable_attributes =
      acc.searchable_attributes ++ (if "searchable" ∈ names then [nm] else []) := by
  induction names with
  | nil => intro acc _; simp
  | cons x rest ih =>
    intro acc hnd
    obtain ⟨hx_rest, hnd'⟩ := List.nodup_cons.mp hnd
    rw [List.foldl_cons, ih _ hnd']
    by_cases hx : x = "searchable"
    · subst hx
      simp [hx_rest, applyAttr_searchable]
    · simp [applyAttr_searchable, hx, Ne.symm hx]

theorem foldl_applyAttr_filterable (names : List String) (nm : String) :
    ∀ acc : MacroAcc, names.Nodup →
    (names.foldl (applyAttr nm) acc).filterable_attributes =
      acc.filterable_attributes ++ (if "filterable" ∈ names then [nm] else []) := by
  induction names with
  | nil => intro acc _; simp
  | cons x rest ih =>
    intro acc hnd
    obtain ⟨hx_rest, hnd'⟩ := List.nodup_cons.mp hnd
    rw [List.foldl_cons, ih _ hnd']
    by_cases hx : x = "filterable"
    · subst hx
      simp [hx_rest, applyAttr_filterable]
    · simp [applyAttr_filterable, hx, Ne.symm hx]

theorem foldl_applyAttr_sortable (names : List String) (nm : String) :
    ∀ acc : MacroAcc, names.Nodup →
    (names.foldl (applyAttr nm) acc).sortable_attributes =
      acc.sortable_attributes ++ (if "sortable" ∈ names then [nm] else []) := by
  induction names with
  | nil => intro acc _; simp
  | cons x rest ih =>
    intro acc hnd
    obtain ⟨hx_rest, hnd'⟩ := List.nodup_cons.mp hnd
    rw [List.foldl_cons, ih _ hnd']
    by_cases hx : x = "sortable"
    · subst hx
      simp [hx_rest, applyAttr_sortable]
    · simp [applyAttr_sortable, hx, Ne.symm hx]

theorem processField_ok_char (acc : MacroAcc) (f : String × List String)
    (acc' : MacroAcc) (h : processField acc f = .ok acc') :
    acc'.displayed_attributes =
      acc.displayed_attributes ++ (if "displayed" ∈ f.2 then [f.1] else []) ∧
    acc'.searchable_attributes =
      acc.searchable_attributes ++ (if "searchable" ∈ f.2 then [f.1] else []) ∧
    acc'.filterable_attributes =
      acc.filterable_attributes ++ (if "filterable" ∈ f.2 then [f.1] else []) ∧
    acc'.sortable_attributes =
      acc.sortable_attributes ++ (if "sortable" ∈ f.2 then [f.1] else []) ∧
    acc'.distinct_key_attribute =
      (if "distinct" ∈ f.2 then f.1 else acc.distinct_key_attribute) ∧
    acc'.primary_key_attribute =
      (f.2.foldl (applyAttr f.1) { acc with attribute_set := acc.attribute_set ++ f.2 }).primary_key_attribute ∧
    acc'.attribute_set = acc.attribute_set ++ f.2 ∧
    ¬("distinct" ∈ f.2 ∧ "distinct" ∈ acc.attribute_set) := by
  unfold processField at h
  cases hext : extract_all_attr_values f.2 acc.attribute_set with
  | error e => rw [hext] at h; cases h
  | ok na =>
    rw [hext] at h
    simp only [Except.ok.injEq] at h
    obtain ⟨e1, e2, e3, -, -, e6, -⟩ :=
      extractGo_ok_inv f.2 acc.attribute_set [] [] na.1 na.2
        (by rw [← hext]; rfl)
    simp only [List.nil_append] at e1
    subst h
    rw [e1, e2]
    refine ⟨?_, ?_, ?_, ?_, ?_, rfl, ?_, e6⟩
    · rw [foldl_applyAttr_displayed f.2 f.1 _ e3]
    · rw [foldl_applyAttr_searchable f.2 f.1 _ e3]
    · rw [foldl_applyAttr_filterable f.2 f.1 _ e3]
    · rw [foldl_applyAttr_sortable f.2 f.1 _ e3]
    · rw [foldl_applyAttr_distinct f.2 f.1 _]
    · rw [foldl_applyAttr_set f.2 f.1 _]

theorem fields_fold_ok_displayed (fields : List (String × List String)) :
    ∀ acc r, get_index_config_fields fields acc = .ok r →
    r.displayed_attributes = acc.displayed_attributes ++ fieldsWith "displayed" fields := by
  induction fields with
  | nil =>
    intro acc r h
    simp only [get_index_config_fields, Except.ok.injEq] at h
    subst h
    simp [fieldsWith]
  | cons f fs ih =>
    intro acc r h
    rw [get_index_config_fields] at h
    cases hpf : processField acc f with
    | error e => rw [hpf] at h; cases h
    | ok acc₁ =>
      rw [hpf] at h
      obtain ⟨c1, -, -, -, -, -, -, -⟩ := processField_ok_char acc f acc₁ hpf
      rw [ih acc₁ r h, c1]
      by_cases hf : "displayed" ∈ f.2 <;>
        simp [fieldsWith, List.filter_cons, hf]

theorem fields_fold_ok_searchable (fields : List (String × List String)) :
    ∀ acc r, get_index_config_fields fields acc = .ok r →
    r.searchable_attributes = acc.searchable_attributes ++ fieldsWith "searchable" fields := by
  induction fields with
  | nil =>
    intro acc r h
    simp only [get_index_config_fields, Except.ok.injEq] at h
    subst h
    simp [fieldsWith]
  | cons f fs ih =>
    intro acc r h
    rw [get_index_config_fields] at h
    cases hpf : processField acc f with
    | error e => rw [hpf] at h; cases h
    | ok acc₁ =>
      rw [hpf] at h
      obtain ⟨-, c2, -, -, -, -, -, -⟩ := processField_ok_char acc f acc₁ hpf
      rw [ih acc₁ r h, c2]
      by_cases hf : "searchable" ∈ f.2 <;>
        simp [fieldsWith, List.filter_cons, hf]

theorem fields_fold_ok_filterable (fields : List (String × List String)) :
    ∀ acc r, get_index_config_fields fields acc = .ok r →
    r.filterable_attributes = acc.filterable_attributes ++ fieldsWith "filterable" fields := by
  induction fields with
  | nil =>
    intro acc r h
    simp only [get_index_config_fields, Except.ok.injEq] at h
    subst h
    simp [fieldsWith]
  | cons f fs ih =>
    intro acc r h
    rw [get_index_config_fields] at h
    cases hpf : processField acc f with
    | error e => rw [hpf] at h; cases h
    | ok acc₁ =>
      rw [hpf] at h
      obtain ⟨-, -, c3, -, -, -, -, -⟩ := processField_ok_char acc f acc₁ hpf
      rw [ih acc₁ r h, c3]
      by_cases hf : "filterable" ∈ f.2 <;>
        simp [fieldsWith, List.filter_cons, hf]

theorem fields_fold_ok_sortable (fields : List (String × List String)) :
    ∀ acc r, get_index_config_fields fields acc = .ok r →
    r.sortable_attributes = acc.sortable_attributes ++ fieldsWith "sortable" fields := by
  induction fields with
  | nil =>
    intro acc r h
    simp only [get_index_config_fields, Except.ok.injEq] at h
    subst h
    simp [fieldsWith]
  | cons f fs ih =>
    intro acc r h
    rw [get_index_config_fields] at h
    cases hpf : processField acc f with
    | error e => rw [hpf] at h; cases h
    | ok acc₁ =>
      rw [hpf] at h
      obtain ⟨-, -, -, c4, -, -, -, -⟩ := processField_ok_char acc f acc₁ hpf
      rw [ih acc₁ r h, c4]
      by_cases hf : "sortable" ∈ f.2 <;>
        simp [fieldsWith, List.filter_cons, hf]

theorem fields_fold_ok_distinct_frozen (fields : List (String × List String)) :
    ∀ acc r, get_index_config_fields fields acc = .ok r →
    "distinct" ∈ acc.attribute_set →
    r.distinct_key_attribute = acc.distinct_key_attribute := by
  induction fields with
  | nil =>
    intro acc r h _
    simp only [get_index_config_fields, Except.ok.injEq] at h
    subst h
    rfl
  | cons f fs ih =>
    intro acc r h hd
    rw [get_index_config_fields] at h
    cases hpf : processField acc f with
    | error e => rw [hpf] at h; cases h
    | ok acc₁ =>
      rw [hpf] at h
      obtain ⟨-, -, -, -, c5, -, c7, c8⟩ := processField_ok_char acc f acc₁ hpf
      have hnotf : "distinct" ∉ f.2 := fun hmem => c8 ⟨hmem, hd⟩
      rw [ih acc₁ r h (by rw [c7]; simp [hd]), c5, if_neg hnotf]

theorem fields_fold_ok_distinct (fields : List (String × List String)) :
    ∀ acc r, get_index_config_fields fields acc = .ok r →
    "distinct" ∉ acc.attribute_set →
    r.distinct_key_attribute =
      ((fields.find? fun f => "distinct" ∈ f.2).map Prod.fst).getD
        acc.distinct_key_attribute := by
  induction fields with
  | nil =>
    intro acc r h _
    simp only [get_index_config_fields, Except.ok.injEq] at h
    subst h
    simp
  | cons f fs ih =>
    intro acc r h hd
    rw [get_index_config_fields] at h
    cases hpf : processField acc f with
    | error e => rw [hpf] at h; cases h
    | ok acc₁ =>
      rw [hpf] at h
      obtain ⟨-, -, -, -, c5, -, c7, -⟩ := processField_ok_char acc f acc₁ hpf
      by_cases hf : "distinct" ∈ f.2
      · have hset : "distinct" ∈ acc₁.attribute_set := by rw [c7]; simp [hf]
        rw [fields_fold_ok_distinct_frozen fs acc₁ r h hset, c5, if_pos hf]
        rw [List.find?_cons_of_pos _ (by simpa using hf)]
        rfl
      · have hset : "distinct" ∉ acc₁.attribute_set := by
          rw [c7]
          simp [hd, hf]
        rw [ih acc₁ r h hset, c5, if_neg hf]
        rw [List.find?_cons_of_neg _ (by simpa using hf)]

theorem buildSettingsFromAcc_fields (acc : MacroAcc) :
    (buildSettingsFromAcc acc).displayed_attributes = some acc.displayed_attributes ∧
    (buildSettingsFromAcc acc).searchable_attributes = some acc.searchable_attributes ∧
    (buildSettingsFromAcc acc).filterable_attributes = some acc.filterable_attributes ∧
    (buildSettingsFromAcc acc).sortable_attributes = some acc.sortable_attributes ∧
    (buildSettingsFromAcc acc).distinct_attribute =
      (if acc.distinct_key_attribute.isEmpty then none
       else some acc.distinct_key_attribute) := by
  unfold buildSettingsFromAcc
  by_cases h : acc.distinct_key_attribute.isEmpty <;>
    simp [h, Settings.new, Settings.with_displayed_attributes,
      Settings.with_sortable_attributes, Settings.with_filterable_attributes,
      Settings.with_searchable_attributes, Settings.with_distinct_attribute]

/-- C7: for a record type with per-field annotations on which the
derive succeeds, generate_settings yields a settings value whose
displayed, searchable, filterable and sortable lists are exactly the
names of the fields carrying the corresponding annotation, in
field-declaration order, and whose distinct attribute is Some of the
name of the (unique) field carrying the distinct annotation, or None
when no field does; fields with no annotation appear in no list. Field
names are nonempty, as Rust identifiers are. -/
theorem generate_settings_spec (fields : List (String × List String)) (s : Settings)
    (hok : generate_settings fields = .ok s)
    (hname : ∀ f ∈ fields, f.1 ≠ "") :
    s.displayed_attributes = some (fieldsWith "displayed" fields) ∧
    s.searchable_attributes = some (fieldsWith "searchable" fields) ∧
    s.filterable_attributes = some (fieldsWith "filterable" fields) ∧
    s.sortable_attributes = some (fieldsWith "sortable" fields) ∧
    s.distinct_attribute = (fields.find? fun f => "distinct" ∈ f.2).map Prod.fst := by
  unfold generate_settings at hok
  cases hacc : get_index_config_fields fields initMacroAcc with
  | error e => rw [hacc] at hok; cases hok
  | ok acc =>
    rw [hacc] at hok
    simp only [Except.ok.injEq] at hok
    subst hok
    obtain ⟨b1, b2, b3, b4, b5⟩ := buildSettingsFromAcc_fields acc
    have h1 := fields_fold_ok_displayed fields initMacroAcc acc hacc
    have h2 := fields_fold_ok_searchable fields initMacroAcc acc hacc
    have h3 := fields_fold_ok_filterable fields initMacroAcc acc hacc
    have h4 := fields_fold_ok_sortable fields initMacroAcc acc hacc
    have h5 := fields_fold_ok_distinct fields initMacroAcc acc hacc (by simp [initMacroAcc])
    simp only [initMacroAcc, List.nil_append] at h1 h2 h3 h4 h5
    refine ⟨by rw [b1, h1], by rw [b2, h2], by rw [b3, h3], by rw [b4, h4], ?_⟩
    rw [b5, h5]
    cases hfind : fields.find? fun f => "distinct" ∈ f.2 with
    | none => rfl
    | some f =>
      have hmem : f ∈ fields := List.mem_of_find?_eq_some hfind
      have hne : ¬(f.1.isEmpty = true) := fun habs =>
        hname f hmem ((String.isEmpty_iff f.1).mp habs)
      simp [hne]

/-- The fields of a concrete record used by the C7 witness. -/
def sampleFields : List (String × List String) :=
  [("movie_id", ["primary_key"]),
   ("owner", ["distinct"]),
   ("title", ["displayed", "searchable"]),
   ("description", []),
   ("release_date", ["filterable", "sortable", "displayed"])]

/-- The settings the macro generates for the C7 witness record. -/
def sampleGeneratedSettings : Settings :=
  { synonyms := none, stop_words := none, ranking_rules := none,
    filterable_attributes := some ["release_date"],
    sortable_attributes := some ["release_date"],
    distinct_attribute := some "owner",
    searchable_attributes := some ["title"],
    displayed_attributes := some ["title", "release_date"],
    pagination := none, faceting := none }

/-- Witness for C7 at a concrete record: the generated settings carry
exactly the annotated field names. -/
theorem generate_settings_spec_witness :
    sampleGeneratedSettings.displayed_attributes =
      some (fieldsWith "displayed" sampleFields) ∧
    sampleGeneratedSettings.searchable_attributes =
      some (fieldsWith "searchable" sampleFields) ∧
    sampleGeneratedSettings.filterable_attributes =
      some (fieldsWith "filterable" sampleFields) ∧
    sampleGeneratedSettings.sortable_attributes =
      some (fieldsWith "sortable" sampleFields) ∧
    sampleGeneratedSettings.distinct_attribute =
      (sampleFields.find? fun f => "distinct" ∈ f.2).map Prod.fst :=
  generate_settings_spec sampleFields sampleGeneratedSettings rfl (by decide)

/-- Modelled from the spec: the closed task-status enumeration
(tasks.rs is not among the provided sources): Enqueued and Processing
are non-terminal, Succeeded, Failed and Canceled terminal. -/
inductive TaskStatus where
  | enqueued
  | processing
  | succeeded
  | failed
  | canceled
deriving DecidableEq

/-- A status is terminal exactly for Succeeded, Failed and Canceled. -/
def TaskStatus.isTerminal : TaskStatus → Bool
  | .succeeded => true
  | .failed => true
  | .canceled => true
  | .enqueued => false
  | .processing => false

/-- Modelled from the spec: the task value returned by the job
resource endpoint; only the identifier and status matter here. -/
structure Task where
  uid : Nat
  status : TaskStatus
deriving DecidableEq

/-- Modelled from the spec: the polling loop of wait_for_completion
(tasks.rs is not among the provided sources). Time is discrete: the
j-th fetch observes polls j and happens at elapsed time j times
interval (the loop sleeps interval between consecutive fetches and the
fetches themselves are instantaneous). Per the spec loop: fetch; if the
status is terminal return the task; else if the elapsed time exceeds
the timeout return a timeout error; else sleep and repeat. The fuel
argument makes the recursion structural; wait_for_completion supplies
enough fuel that the fuel-exhaustion branch is unreachable when the
interval is positive. -/
def waitGo (polls : Nat → Task) (interval timeout : Nat) :
    Nat → Nat → Except Error Task
  | 0, _ => .error .timeout
  | fuel + 1, i =>
    let task := polls i
    if task.status.isTerminal then .ok task
    else if timeout < i * interval then .error .timeout
    else waitGo polls interval timeout fuel (i + 1)

/-- Modelled from the spec: wait_for_completion over an abstract poll
stream (the successive task values the dispatcher would fetch). -/
def wait_for_completion (polls : Nat → Task) (interval timeout : Nat) :
    Except Error Task :=
  waitGo polls interval timeout (timeout / interval + 2) 0

theorem waitGo_ok (polls : Nat → Task) (interval timeout : Nat) (n : Nat)
    (hterm : (polls n).status.isTerminal = true)
    (hbefore : ∀ j < n, (polls j).status.isTerminal = false ∧ j * interval ≤ timeout) :
    ∀ fuel i, i ≤ n → n + 1 ≤ fuel + i →
    waitGo polls interval timeout fuel i = .ok (polls n) := by
  intro fuel
  induction fuel with
  | zero =>
    intro i hi hf
    omega
  | succ fuel ih =>
    intro i hi hf
    rw [waitGo]
    by_cases hin : i = n
    · subst hin
      simp [hterm]
    · have hlt : i < n := lt_of_le_of_ne hi hin
      obtain ⟨hnt, hle⟩ := hbefore i hlt
      rw [if_neg (by simp [hnt]), if_neg (by omega)]
      exact ih (i + 1) (by omega) (by omega)

theorem waitGo_timeout (polls : Nat → Task) (interval timeout : Nat)
    (hint : 0 < interval)
    (hall : ∀ j ≤ timeout / interval + 1, (polls j).status.isTerminal = false) :
    ∀ fuel i, timeout / interval + 2 ≤ fuel + i → i ≤ timeout / interval + 1 →
    waitGo polls interval timeout fuel i = .error .timeout := by
  intro fuel
  induction fuel with
  | zero =>
    intro i h1 h2
    omega
  | succ fuel ih =>
    intro i h1 h2
    rw [waitGo]
    rw [if_neg (by simp [hall i h2])]
    by_cases hto : timeout < i * interval
    · rw [if_pos hto]
    · rw [if_neg hto]
      have hdiv : i ≤ timeout / interval := (Nat.le_div_iff_mul_le hint).mpr (by omega)
      exact ih (i + 1) (by omega) (by omega)

/-- C2: with a positive interval, if the n-th poll is the first to
observe a terminal status (Succeeded, Failed or Canceled) and the
timeout has not elapsed at any earlier poll, wait_for_completion
returns that task as an ordinary value; the result only depends on
polls up to n, so no polling happens after the first terminal
observation; and if no poll observes a terminal status before the
deadline (every poll up to the last one the loop can make, at index
timeout divided by interval plus one, is non-terminal), it returns a
timeout error. Elapsed time is measured from the call's start: the
j-th poll happens at j times interval. -/
theorem wait_for_completion_spec (interval timeout : Nat) (hint : 0 < interval)
    (polls polls' : Nat → Task) (n : Nat) :
    ((polls n).status.isTerminal = true →
     (∀ j < n, (polls j).status.isTerminal = false ∧ j * interval ≤ timeout) →
     wait_for_completion polls interval timeout = .ok (polls n)) ∧
    ((polls n).status.isTerminal = true →
     (∀ j < n, (polls j).status.isTerminal = false ∧ j * interval ≤ timeout) →
     (∀ j ≤ n, polls' j = polls j) →
     wait_for_completion polls' interval timeout = .ok (polls n)) ∧
    ((∀ j ≤ timeout / interval + 1, (polls j).status.isTerminal = false) →
     wait_for_completion polls interval timeout = .error .timeout) := by
  have hbound : ∀ m : Nat, (∀ j < m, (polls j).status.isTerminal = false ∧
      j * interval ≤ timeout) → m ≤ timeout / interval + 1 := by
    intro m hb
    cases m with
    | zero => exact Nat.zero_le _
    | succ m =>
      have := (hb m (by omega)).2
      have : m ≤ timeout / interval := (Nat.le_div_iff_mul_le hint).mpr this
      omega
  refine ⟨?_, ?_, ?_⟩
  · intro hterm hbefore
    exact waitGo_ok polls interval timeout n hterm hbefore
      (timeout / interval + 2) 0 (Nat.zero_le n)
      (by have := hbound n hbefore; omega)
  · intro hterm hbefore hagree
    have hterm' : (polls' n).status.isTerminal = true := by rw [hagree n (by omega)]; exact hterm
    have hbefore' : ∀ j < n, (polls' j).status.isTerminal = false ∧
        j * interval ≤ timeout := by
      intro j hj
      rw [hagree j (by omega)]
      exact hbefore j hj
    have := waitGo_ok polls' interval timeout n hterm' hbefore'
      (timeout / interval + 2) 0 (Nat.zero_le n)
      (by have := hbound n hbefore; omega)
    rw [wait_for_completion, this, hagree n (by omega)]
  · intro hall
    exact waitGo_timeout polls interval timeout hint hall
      (timeout / interval + 2) 0 (by omega) (Nat.zero_le _)

/-- A poll stream for the C2 witness: two non-terminal observations,
then the job fails. -/
def samplePolls : Nat → Task :=
  fun i => if i = 0 then ⟨7, .enqueued⟩
    else if i = 1 then ⟨7, .processing⟩
    else ⟨7, .failed⟩

/-- A poll stream for the C2 witness that never reaches a terminal
state. -/
def samplePollsStuck : Nat → Task :=
  fun _ => ⟨7, .processing⟩

/-- Witness for C2 at concrete inputs: with interval 10 and timeout 50
the failing job is returned as a value on the third poll, and the stuck
job yields a timeout error. -/
theorem wait_for_completion_spec_witness :
    wait_for_completion samplePolls 10 50 = .ok ⟨7, .failed⟩ ∧
    wait_for_completion samplePollsStuck 10 50 = .error .timeout :=
  ⟨(wait_for_completion_spec 10 50 (by decide) samplePolls samplePolls 2).1
      (by decide) (by decide),
   (wait_for_completion_spec 10 50 (by decide) samplePollsStuck samplePollsStuck 0).2.2
      (by decide)⟩

end Meili
